/-
Verification of the lhear/http-proxy repository against its specification.

The embedding models `test.py` (the proxy stability tester).  Python strings
are modelled as `List Char` (`PyStr`), Python dicts as association lists with
Python's assignment semantics (`pyDictSet`), Python floats as `Rat`, and the
JSON values produced by `json.load` as the inductive `JValue`.  Network I/O is
modelled by an oracle `NetEvent` describing what the HTTP stack does for one
probe of one proxy; per the spec's scope section, the `ipaddress` library
primitives (address parsing, network membership) are abstracted as parameters.
-/
import Mathlib

set_option maxHeartbeats 1000000

/-! ## Definitions: the shallow embedding of `test.py` -/

/-- Python strings are modelled as lists of characters. -/
abbrev PyStr := List Char

/-- Coerce a Lean string literal to the Python-string model. -/
def pystr (s : String) : PyStr := s.toList

/-- Python whitespace characters recognised by `str.strip()` (ASCII range;
unicode whitespace is not modelled). -/
def pyIsSpace (c : Char) : Bool :=
  c = ' ' || c = '\t' || c = '\n' || c = '\x0d' || c = '\x0b' || c = '\x0c'

/-- Python `str.strip()`: drop leading and trailing whitespace. -/
def pyStrip (l : PyStr) : PyStr :=
  ((l.dropWhile pyIsSpace).reverse.dropWhile pyIsSpace).reverse

/-- Python dict lookup `d[k]` / `d.get(k)`: keys are assumed distinct, as
Python dicts guarantee; the first binding wins. -/
def dictLookup (k : PyStr) : List (PyStr × α) → Option α
  | [] => none
  | (k', v) :: rest => if k' = k then some v else dictLookup k rest

/-- Python `k in d`. -/
def dictContains (k : PyStr) (d : List (PyStr × α)) : Bool :=
  (dictLookup k d).isSome

/-- Python dict assignment `d[k] = v`: replace in place if the key exists,
append otherwise. -/
def pyDictSet (d : List (PyStr × α)) (k : PyStr) (v : α) : List (PyStr × α) :=
  match d with
  | [] => [(k, v)]
  | (k', v') :: rest => if k' = k then (k, v) :: rest else (k', v') :: pyDictSet rest k v

/-- A Python value as produced by `json.load` (dicts already have distinct
keys, since `json.load` builds Python dicts).  Numbers are modelled as `Rat`. -/
inductive JValue where
  | jnull
  | jbool (b : Bool)
  | jnum (q : Rat)
  | jstr (s : PyStr)
  | jarr (elems : List JValue)
  | jobj (fields : List (PyStr × JValue))

/-- One registry record `{'added_at': ts, 'location': loc}` as built by
`load_timestamps` and by the registry merge in `main`.  `location` is kept as
a raw JSON value because `load_timestamps` stores `info.get('location')`
verbatim. -/
structure RegistryEntry where
  added_at : Rat
  location : JValue

/-- The in-memory registry `proxy_info` (a Python dict). -/
abbrev Registry := List (PyStr × RegistryEntry)

/-- Digit-run parser used by `int()`: after the first digit, single
underscores are allowed between digits (PEP 515). -/
def pyIntDigits : List Char → Nat → Option Nat
  | [], acc => some acc
  | '_' :: c :: rest, acc =>
      if c.isDigit then pyIntDigits rest (acc * 10 + (c.toNat - 48)) else none
  | ['_'], _ => none
  | c :: rest, acc =>
      if c.isDigit then pyIntDigits rest (acc * 10 + (c.toNat - 48)) else none

def pyNatDigits? : List Char → Option Nat
  | [] => none
  | c :: rest => if c.isDigit then pyIntDigits rest (c.toNat - 48) else none

/-- Python `int(s)` on a string: strips whitespace, then an optional sign and
a decimal digit run (unicode digits are not modelled). -/
def pyInt? (s : PyStr) : Option Int :=
  match pyStrip s with
  | '+' :: rest => (pyNatDigits? rest).map Int.ofNat
  | '-' :: rest => (pyNatDigits? rest).map (fun n => -(n : Int))
  | rest => (pyNatDigits? rest).map Int.ofNat

/-- Decimal float-literal parser for `float(s)` on strings: sign, digits,
optional fraction, optional exponent ("inf"/"nan" and PEP 515 underscores are
not modelled; they never appear in registries this program writes). -/
def pyFloatDigits? (l : List Char) : Option (Nat × Nat) :=
  -- returns (value, number of digits)
  if l.all Char.isDigit then
    some (l.foldl (fun acc c => acc * 10 + (c.toNat - 48)) 0, l.length)
  else none

def pyFloatOfString? (s : PyStr) : Option Rat :=
  let l := pyStrip s
  let (sign, body) : Int × List Char :=
    match l with
    | '+' :: rest => (1, rest)
    | '-' :: rest => (-1, rest)
    | rest => (1, rest)
  let intPart := body.takeWhile Char.isDigit
  let rest₁ := body.drop intPart.length
  let (fracPart, rest₂) : List Char × List Char :=
    match rest₁ with
    | '.' :: r => (r.takeWhile Char.isDigit, (r.takeWhile Char.isDigit).length |> r.drop)
    | r => ([], r)
  let expVal? : Option Int :=
    match rest₂ with
    | [] => some 0
    | 'e' :: r =>
      (match r with
       | '+' :: rr => (pyNatDigits? rr).map Int.ofNat
       | '-' :: rr => (pyNatDigits? rr).map (fun n => -(n : Int))
       | rr => (pyNatDigits? rr).map Int.ofNat)
    | 'E' :: r =>
      (match r with
       | '+' :: rr => (pyNatDigits? rr).map Int.ofNat
       | '-' :: rr => (pyNatDigits? rr).map (fun n => -(n : Int))
       | rr => (pyNatDigits? rr).map Int.ofNat)
    | _ => none
  if intPart = [] ∧ fracPart = [] then none
  else match expVal? with
    | none => none
    | some e =>
      let mantissa : Nat :=
        (intPart ++ fracPart).foldl (fun acc c => acc * 10 + (c.toNat - 48)) 0
      some ((sign : Rat) * (mantissa : Rat) / ((10 : Rat) ^ fracPart.length) *
        ((10 : Rat) ^ e))

/-- Python `float(x)` on a JSON-decoded value: numbers and booleans convert,
numeric strings parse, anything else raises (`none`). -/
def pyFloat? : JValue → Option Rat
  | .jnum q => some q
  | .jbool b => some (if b then 1 else 0)
  | .jstr s => pyFloatOfString? s
  | _ => none

def kAddedAt : PyStr := pystr "added_at"

def kLocation : PyStr := pystr "location"

/-- The cleaning loop of `load_timestamps`: keep records that are dicts with
an `added_at` key; `float(info['added_at'])` raising (`none`) aborts the whole
load (the surrounding `except` returns `{}`). -/
def cleanEntries : List (PyStr × JValue) → Registry → Option Registry
  | [], cleaned => some cleaned
  | (proxy, info) :: rest, cleaned =>
    match info with
    | .jobj infoFields =>
      match dictLookup kAddedAt infoFields with
      | some v =>
        match pyFloat? v with
        | some t =>
            cleanEntries rest
              (pyDictSet cleaned proxy ⟨t, (dictLookup kLocation infoFields).getD .jnull⟩)
        | none => none
      | none => cleanEntries rest cleaned
    | _ => cleanEntries rest cleaned

/-- `load_timestamps`: the file content is modelled as the JSON value it
holds.  A non-dict top level raises (`data.items()`), which the `except`
clause turns into `{}`; so does a record whose `added_at` cannot be
converted. -/
def load_timestamps (j : JValue) : Registry :=
  match j with
  | .jobj fields => (cleanEntries fields []).getD []
  | _ => []

/-- Code-point comparison of Python strings (used by `sort_keys=True`). -/
def strLE : PyStr → PyStr → Bool
  | [], _ => true
  | _ :: _, [] => false
  | a :: as, b :: bs => if a < b then true else if b < a then false else strLE as bs

def insertByKey (x : PyStr × α) : List (PyStr × α) → List (PyStr × α)
  | [] => [x]
  | y :: ys => if strLE x.1 y.1 then x :: y :: ys else y :: insertByKey x ys

/-- Stable sort by key, modelling `json.dump(..., sort_keys=True)` at the top
level of the registry object. -/
def sortByKey : List (PyStr × α) → List (PyStr × α)
  | [] => []
  | x :: xs => insertByKey x (sortByKey xs)

/-- Encoding of one registry record as written by `json.dump`.  The two field
keys are already in sorted order (`added_at` < `location`); `sort_keys` would
additionally sort inside `location`, which matters only for container
locations — the program only ever writes string locations, and the round-trip
theorem restricts itself to string-or-null locations accordingly. -/
def encodeEntry (e : RegistryEntry) : JValue :=
  .jobj [(kAddedAt, .jnum e.added_at), (kLocation, e.location)]

/-- `save_timestamps`: the JSON value written to the file (the atomic
temp-file/rename mechanics live below the embedding boundary). -/
def save_timestamps (M : Registry) : JValue :=
  .jobj (sortByKey (M.map (fun kv => (kv.1, encodeEntry kv.2))))

/-- `proxy.rsplit(':', 1)` when a colon is present: split at the last colon. -/
def rsplitColon : PyStr → Option (PyStr × PyStr)
  | [] => none
  | c :: rest =>
    match rsplitColon rest with
    | some (a, b) => some (c :: a, b)
    | none => if c = ':' then some ([], rest) else none

/-- `proxy.partition(']:')`: split at the first occurrence of `"]:"`;
`none` models the not-found case (empty separator and tail). -/
def partitionBracketColon : PyStr → Option (PyStr × PyStr)
  | [] => none
  | c :: rest =>
    if c = ']' ∧ rest.headD ' ' = ':' then some ([], rest.drop 1)
    else (partitionBracketColon rest).map (fun pr => (c :: pr.1, pr.2))

/-- Python `c.isalnum() or c in ('.', '-', '_')` (ASCII alphanumerics; the
unicode extent of `isalnum` is not modelled). -/
def domainChar (c : Char) : Bool :=
  c.isAlphanum || c = '.' || c = '-' || c = '_'

/-- The host-acceptance chain of `validate_proxy`: `localhost`, an IP
literal, or the domain character/length rule. -/
def checkHost {IPAddr : Type} (ipParse : PyStr → Option IPAddr) (host : PyStr) : Bool :=
  if host = pystr "localhost" then true
  else if (ipParse host).isSome then true
  else if host.all domainChar && decide (host.length ≤ 253) then true
  else false

/-- Host/port checks shared by both branches of `validate_proxy` (the code
after the host/port split: strip both parts, require them nonempty, parse
and range-check the port, then check the host). -/
def checkHostPort {IPAddr : Type} (ipParse : PyStr → Option IPAddr)
    (host₀ portStr₀ : PyStr) : Bool :=
  if pyStrip host₀ = [] ∨ pyStrip portStr₀ = [] then false
  else
    match pyInt? (pyStrip portStr₀) with
    | none => false
    | some port =>
      if ¬ (1 ≤ port ∧ port ≤ 65535) then false
      else checkHost ipParse (pyStrip host₀)

/-- `validate_proxy`. -/
def validate_proxy {IPAddr : Type} (ipParse : PyStr → Option IPAddr)
    (proxy : PyStr) : Bool :=
  if proxy = [] ∨ ':' ∉ proxy then false
  else if proxy.headD ' ' = '[' then
    if ']' ∉ proxy then false
    else
      match partitionBracketColon proxy with
      | none => false  -- port part empty after partition
      | some (hostPart, portPart) =>
        if hostPart = [] ∨ portPart = [] then false
        else checkHostPort ipParse (hostPart.drop 1) portPart
  else
    match rsplitColon proxy with
    | none => false  -- `len(parts) != 2`, unreachable when ':' ∈ proxy
    | some (h, p) => checkHostPort ipParse h p

/-- `extract_host_from_proxy`. -/
def extract_host_from_proxy (proxy : PyStr) : Option PyStr :=
  if proxy.headD ' ' = '[' then
    if ']' ∈ proxy then some ((proxy.drop 1).takeWhile (fun c => c ≠ ']'))
    else none
  else
    let host := pyStrip (proxy.takeWhile (fun c => c ≠ ':'))
    if host = [] then none else some host

/-- `is_ip_in_cidr_list`: parse the host (a `ValueError` skips the loop and
returns `False`), then test membership in each network. -/
def is_ip_in_cidr_list {IPAddr Network : Type} (ipParse : PyStr → Option IPAddr)
    (inNet : IPAddr → Network → Bool) (ip_str : PyStr) (cidrs : List Network) : Bool :=
  match ipParse ip_str with
  | some ip => cidrs.any (fun c => inNet ip c)
  | none => false

/-- `filter_proxies_by_cidr`: the accumulation loop appends exactly the
proxies whose per-item keep decision holds, i.e. it is `List.filter`. -/
def filter_proxies_by_cidr {IPAddr Network : Type} (ipParse : PyStr → Option IPAddr)
    (inNet : IPAddr → Network → Bool) (proxies : List PyStr)
    (skip_cidr_list : List Network) : List PyStr :=
  if skip_cidr_list.isEmpty then proxies
  else
    proxies.filter (fun proxy =>
      match extract_host_from_proxy proxy with
      | none => true  -- keep if can't parse (let test fail later)
      | some host => !(is_ip_in_cidr_list ipParse inNet host skip_cidr_list))

/-- The keep predicate as the spec words it: extraction failure keeps the
address; otherwise keep iff the host is not a valid IP address, or is a valid
IP address contained in none of the excluded networks. -/
def keepSpec {IPAddr Network : Type} (ipParse : PyStr → Option IPAddr)
    (inNet : IPAddr → Network → Bool) (skip_cidr_list : List Network)
    (proxy : PyStr) : Bool :=
  match extract_host_from_proxy proxy with
  | none => true
  | some host =>
    match ipParse host with
    | none => true
    | some ip => skip_cidr_list.all (fun c => !(inNet ip c))

/-- What the HTTP stack does for one probe of one proxy: a response with a
status and body, one of the classified exceptions of `test_http_proxy`, or an
exception escaping the task (surfaced by `asyncio.gather`).  Each event
carries the elapsed wall-clock time observed for it. -/
inductive NetEvent where
  | response (status : Nat) (body : PyStr) (elapsed : Rat)
  | timeoutErr (elapsed : Rat)
  | proxyConnError (elapsed : Rat)
  | proxyHttpError (elapsed : Rat)
  | sslError (elapsed : Rat)
  | connectorError (elapsed : Rat)
  | otherError (elapsed : Rat)
  | taskFailure (msg : PyStr)

/-- The tuple `(proxy, is_available, response_time, error, loc)`. -/
structure ProbeOutcome where
  proxy : PyStr
  ok : Bool
  elapsed : Rat
  error : PyStr
  loc : Option PyStr

/-- Python `str.splitlines()` (the `\n`, `\r`, `\r\n` terminators; the rarer
unicode terminators are not modelled). -/
def pySplitlines : PyStr → List PyStr
  | [] => []
  | '\x0d' :: '\n' :: rest => [] :: pySplitlines rest
  | '\x0d' :: rest => [] :: pySplitlines rest
  | '\n' :: rest => [] :: pySplitlines rest
  | c :: rest =>
    match pySplitlines rest with
    | [] => [[c]]
    | l :: ls => (c :: l) :: ls

/-- `extract_loc_from_trace`: first line starting with `loc=`; an empty value
after stripping yields `None`. -/
def extract_loc_from_trace (body : PyStr) : Option PyStr :=
  match (pySplitlines body).find? (fun line => (pystr "loc=").isPrefixOf line) with
  | none => none
  | some line =>
    let v := pyStrip (line.drop 4)
    if v = [] then none else some v

/-- `test_http_proxy`: classify the network event for one (already stripped)
proxy.  A `taskFailure` is an exception escaping the task (`Except.error`),
everything else is caught and converted to an outcome. -/
def test_http_proxy (net : PyStr → NetEvent) (proxy : PyStr) :
    Except PyStr ProbeOutcome :=
  match net proxy with
  | .response status body t =>
    if status = 200 then .ok ⟨proxy, true, t, [], extract_loc_from_trace body⟩
    else .ok ⟨proxy, false, t, pystr "HTTP " ++ (toString status).toList, none⟩
  | .timeoutErr t => .ok ⟨proxy, false, t, pystr "Timeout", none⟩
  | .proxyConnError t => .ok ⟨proxy, false, t, pystr "Proxy connection failed", none⟩
  | .proxyHttpError t => .ok ⟨proxy, false, t, pystr "Proxy HTTP error", none⟩
  | .sslError t => .ok ⟨proxy, false, t, pystr "SSL/TLS error", none⟩
  | .connectorError t => .ok ⟨proxy, false, t, pystr "Connection failed", none⟩
  | .otherError t => .ok ⟨proxy, false, t, pystr "Unknown error", none⟩
  | .taskFailure msg => .error msg

/-- The per-index post-processing of `asyncio.gather(..., return_exceptions=True)`:
an exception becomes a failed outcome for that address. -/
def probeOne (net : PyStr → NetEvent) (proxy : PyStr) : ProbeOutcome :=
  match test_http_proxy net (pyStrip proxy) with
  | .ok o => o
  | .error msg => ⟨pyStrip proxy, false, 0, pystr "Exception: " ++ msg, none⟩

/-- `test_all_proxies`: one round of probing.  `gather` preserves task order,
so the outcome list is the map of `probeOne` over the input. -/
def test_all_proxies (net : PyStr → NetEvent) (proxies : List PyStr) :
    List ProbeOutcome :=
  if proxies.isEmpty then []
  else proxies.map (probeOne net)

/-- The ad hoc loop state of `main`: `current_proxies`, `proxy_info`,
`consecutive_success`, `round_num`. -/
structure LoopState where
  current : List PyStr
  proxyInfo : Registry
  consecutive : Nat
  round : Nat

/-- `loc or "N/A"`: `None` and the empty string are falsy. -/
def locOrNA (loc : Option PyStr) : PyStr :=
  match loc with
  | some s => if s = [] then pystr "N/A" else s
  | none => pystr "N/A"

/-- The addresses that passed one round: successful outcomes' proxies. -/
def roundSurvivors (net : PyStr → NetEvent) (proxies : List PyStr) : List PyStr :=
  ((test_all_proxies net proxies).filter (·.ok)).map (·.proxy)

/-- `available_proxies_with_loc`: the successful outcomes of one round, as
(proxy, loc) pairs. -/
def roundAvailWithLoc (net : PyStr → NetEvent) (proxies : List PyStr) :
    List (PyStr × Option PyStr) :=
  ((test_all_proxies net proxies).filter (·.ok)).map (fun o => (o.proxy, o.loc))

/-- The mid-loop registry update: newly available proxies get a record whose
`added_at` is the run start time; existing records are left alone. -/
def updateInfo (hasTS : Bool) (startTime : Rat) (info : Registry)
    (availWithLoc : List (PyStr × Option PyStr)) : Registry :=
  if hasTS then
    availWithLoc.foldl
      (fun d pr =>
        if dictContains pr.1 d then d
        else pyDictSet d pr.1 ⟨startTime, .jstr (locOrNA pr.2)⟩)
      info
  else info

/-- One iteration of the while loop body after the `total == 0` break check:
probe the working set, record first-seen info for newly available proxies
(when a timestamp file is configured), then either count a 100% pass or reset
the counter and shrink the working set. -/
def stepRound (net : PyStr → NetEvent) (hasTS : Bool) (startTime : Rat)
    (st : LoopState) : LoopState :=
  if ((roundAvailWithLoc net st.current).map Prod.fst).length = st.current.length then
    { st with proxyInfo := updateInfo hasTS startTime st.proxyInfo (roundAvailWithLoc net st.current),
              consecutive := st.consecutive + 1, round := st.round + 1 }
  else
    { current := (roundAvailWithLoc net st.current).map Prod.fst,
      proxyInfo := updateInfo hasTS startTime st.proxyInfo (roundAvailWithLoc net st.current),
      consecutive := 0, round := st.round + 1 }

/-- The while loop, with fuel `max_rounds - round_num` standing for the
`round_num < args.max_rounds` conjunct of the loop condition.  Returns the
final state and the trace of working sets, one per executed round. -/
def loopGo (netR : Nat → PyStr → NetEvent) (hasTS : Bool) (startTime : Rat) :
    Nat → LoopState → LoopState × List (List PyStr)
  | 0, st => (st, [])
  | fuel + 1, st =>
    if 3 ≤ st.consecutive then (st, [])
    else if st.current = [] then
      -- `total == 0` break: the round number was already incremented
      ({ st with round := st.round + 1 }, [st.current])
    else
      let net := netR (st.round + 1)
      let st' := stepRound net hasTS startTime st
      if roundSurvivors net st.current = [] then (st', [st.current])
      else
        let r := loopGo netR hasTS startTime fuel st'
        (r.1, st.current :: r.2)

/-- The stability loop as entered from `main`. -/
def runLoop (netR : Nat → PyStr → NetEvent) (hasTS : Bool) (startTime : Rat)
    (maxRounds : Nat) (st : LoopState) : LoopState × List (List PyStr) :=
  loopGo netR hasTS startTime (maxRounds - st.round) st

/-- The two ways the loop can end, as reported by `main` after the loop. -/
inductive LoopOutcome where
  | STABLE
  | EXHAUSTED
deriving DecidableEq

def loopOutcome (st : LoopState) : LoopOutcome :=
  if 3 ≤ st.consecutive then .STABLE else .EXHAUSTED

/-- The `cleaned_info` construction of the final confirmation block: keep the
known entry for a surviving proxy, create a fresh one otherwise. -/
def mergeRegistry (proxy_info : Registry) (availFinal : List (PyStr × Option PyStr))
    (now : Rat) : Registry :=
  availFinal.foldl
    (fun cleaned pr =>
      match dictLookup pr.1 proxy_info with
      | some e => pyDictSet cleaned pr.1 e
      | none => pyDictSet cleaned pr.1 ⟨now, .jstr (locOrNA pr.2)⟩)
    []

/-- The survivors of the final confirmation round of a run. -/
def finalSurvivors (netR : Nat → PyStr → NetEvent) (netF : PyStr → NetEvent)
    (hasOutput : Bool) (startTime : Rat) (maxRounds : Nat) (loaded : Registry)
    (proxies : List PyStr) : List PyStr :=
  roundSurvivors netF
    (runLoop netR hasOutput startTime maxRounds ⟨proxies, loaded, 0, 0⟩).1.current

/-- The registry contents persisted at the end of one run of `main`:
`some cleaned_info` when a save happens, `none` when the timestamp file is
deleted or never written (no output path, empty final list, or zero final
survivors).  The timestamp file exists iff an output path was given. -/
def runSavedRegistry (netR : Nat → PyStr → NetEvent) (netF : PyStr → NetEvent)
    (hasOutput : Bool) (startTime now : Rat) (maxRounds : Nat) (loaded : Registry)
    (proxies : List PyStr) : Option Registry :=
  let fin := (runLoop netR hasOutput startTime maxRounds ⟨proxies, loaded, 0, 0⟩).1
  if hasOutput = true ∧ fin.current ≠ [] then
    let finalResults := test_all_proxies netF fin.current
    let availFinal := finalResults.filter (·.ok)
    if (availFinal.map (fun o => o.proxy)).isEmpty then none
    else some (mergeRegistry fin.proxyInfo (availFinal.map (fun o => (o.proxy, o.loc))) now)
  else none

/-- A network oracle for which every probe succeeds. -/
def netAllOk : PyStr → NetEvent := fun _ => .response 200 (pystr "loc=US\n") 1

/-- A network oracle that fails one fixed proxy and passes everything else. -/
def netDropOne : Nat → PyStr → NetEvent := fun _ p =>
  if p = pystr "5.6.7.8:80" then .connectorError 2 else .response 200 (pystr "loc=US\n") 1

/-- A network oracle where one probe raises an exception that escapes the
task and another fails to connect. -/
def netMixed : PyStr → NetEvent := fun p =>
  if p = pystr "1.2.3.4:80" then .taskFailure (pystr "boom")
  else if p = pystr "5.6.7.8:80" then .connectorError 2
  else .response 200 (pystr "loc=US\n") 1

/-- A network oracle that fails `1.2.3.4:80` and passes everything else. -/
def netKeepOther : Nat → PyStr → NetEvent := fun _ p =>
  if p = pystr "1.2.3.4:80" then .connectorError 2
  else .response 200 (pystr "loc=DE\n") 1

/-- Well-formed stored locations: a string or null (what the program ever
writes; `json.dump(sort_keys=True)` re-sorts inside container locations,
which the save model does not chase). -/
def locWF : JValue → Bool
  | .jnull => true
  | .jstr _ => true
  | _ => false

/-- A stand-in for `ipaddress.ip_address`: accepts exactly `::1`. -/
def ipStub : PyStr → Option Unit := fun s => if s = pystr "::1" then some () else none

/-! ## Theorems -/

theorem dropWhile_idem (p : Char → Bool) (l : List Char) :
    (l.dropWhile p).dropWhile p = l.dropWhile p := by
  induction l with
  | nil => rfl
  | cons a l ih =>
    by_cases h : p a
    · simp [List.dropWhile_cons, h, ih]
    · simp [List.dropWhile_cons, h]

theorem head?_dropWhile_false (p : Char → Bool) (l : List Char) :
    ∀ a, (l.dropWhile p).head? = some a → p a = false := by
  induction l with
  | nil => intro a h; simp at h
  | cons b l ih =>
    intro a h
    by_cases hb : p b
    · exact ih a (by simpa [List.dropWhile_cons, hb] using h)
    · simp [List.dropWhile_cons, hb] at h
      subst h
      simpa using hb

theorem dropWhile_eq_self_of_head (p : Char → Bool) (l : List Char)
    (h : ∀ a, l.head? = some a → p a = false) : l.dropWhile p = l := by
  cases l with
  | nil => rfl
  | cons a l =>
    have := h a rfl
    simp [List.dropWhile_cons, this]

theorem dropWhile_suffix (p : Char → Bool) (l : List Char) :
    l.dropWhile p <:+ l := by
  induction l with
  | nil => simp
  | cons a l ih =>
    by_cases h : p a
    · simp only [List.dropWhile_cons, h, if_pos]
      exact ih.trans (List.suffix_cons a l)
    · simp [List.dropWhile_cons, h]

theorem getLast?_of_suffix {l₁ l₂ : List Char} (h : l₁ <:+ l₂) (hne : l₁ ≠ []) :
    l₂.getLast? = l₁.getLast? := by
  obtain ⟨t, rfl⟩ := h
  exact List.getLast?_append_of_ne_nil t hne

/-- `str.strip()` is idempotent. -/
theorem pyStrip_idem (l : PyStr) : pyStrip (pyStrip l) = pyStrip l := by
  unfold pyStrip
  set A := l.dropWhile pyIsSpace with hA
  set B := A.reverse.dropWhile pyIsSpace with hB
  have hBdrop : B.dropWhile pyIsSpace = B := by rw [hB]; exact dropWhile_idem _ _
  have hRdrop : B.reverse.dropWhile pyIsSpace = B.reverse := by
    apply dropWhile_eq_self_of_head
    intro a ha
    rcases List.eq_nil_or_concat B.reverse with h | ⟨ys, y, hy⟩
    · rw [h] at ha; simp at ha
    · -- head of B.reverse is the last element of A.reverse's dropWhile, i.e. head of A
      have hBne : B ≠ [] := by
        intro hnil; rw [hnil] at ha; simp at ha
      have h1 : B.getLast? = A.reverse.getLast? := by
        exact (getLast?_of_suffix (dropWhile_suffix pyIsSpace A.reverse) hBne).symm
      have h2 : A.reverse.getLast? = A.head? := List.getLast?_reverse A
      have h3 : B.reverse.head? = B.getLast? := List.head?_reverse B
      have hhead : A.head? = some a := by rw [← h2, ← h1, ← h3, ha]
      rw [hA] at hhead
      exact head?_dropWhile_false pyIsSpace l a hhead
  rw [hRdrop, List.reverse_reverse, hBdrop]

theorem pyStrip_nil : pyStrip [] = [] := rfl

theorem dictLookup_pyDictSet_self (d : List (PyStr × α)) (k : PyStr) (v : α) :
    dictLookup k (pyDictSet d k v) = some v := by
  induction d with
  | nil => simp [pyDictSet, dictLookup]
  | cons h rest ih =>
    obtain ⟨k', v'⟩ := h
    by_cases hk : k' = k
    · simp [pyDictSet, hk, dictLookup]
    · simp [pyDictSet, hk, dictLookup, ih]

theorem dictLookup_pyDictSet_other (d : List (PyStr × α)) (k q : PyStr) (v : α)
    (h : q ≠ k) : dictLookup q (pyDictSet d k v) = dictLookup q d := by
  induction d with
  | nil => simp [pyDictSet, dictLookup, Ne.symm h]
  | cons hd rest ih =>
    obtain ⟨k', v'⟩ := hd
    by_cases hk : k' = k
    · subst hk
      simp [pyDictSet, dictLookup, Ne.symm h]
    · simp only [pyDictSet, if_neg hk, dictLookup]
      by_cases hq : k' = q
      · simp [hq]
      · simp [hq, ih]

theorem pyDictSet_of_absent (d : List (PyStr × α)) (k : PyStr) (v : α)
    (h : dictLookup k d = none) : pyDictSet d k v = d ++ [(k, v)] := by
  induction d with
  | nil => rfl
  | cons hd rest ih =>
    obtain ⟨k', v'⟩ := hd
    by_cases hk : k' = k
    · simp [dictLookup, hk] at h
    · simp only [dictLookup, if_neg hk] at h
      simp [pyDictSet, hk, ih h]

theorem test_all_proxies_eq_map (net : PyStr → NetEvent) (proxies : List PyStr) :
    test_all_proxies net proxies = proxies.map (probeOne net) := by
  cases proxies <;> rfl

theorem probeOne_proxy (net : PyStr → NetEvent) (p : PyStr) :
    (probeOne net p).proxy = pyStrip p := by
  unfold probeOne test_http_proxy
  cases net (pyStrip p) with
  | response status body t => by_cases h : status = 200 <;> simp [h]
  | timeoutErr t => rfl
  | proxyConnError t => rfl
  | proxyHttpError t => rfl
  | sslError t => rfl
  | connectorError t => rfl
  | otherError t => rfl
  | taskFailure msg => rfl

theorem roundAvailWithLoc_fst (net : PyStr → NetEvent) (ps : List PyStr) :
    (roundAvailWithLoc net ps).map Prod.fst = roundSurvivors net ps := by
  unfold roundAvailWithLoc roundSurvivors
  rw [List.map_map]
  rfl

theorem roundSurvivors_eq_filter (net : PyStr → NetEvent) (ps : List PyStr)
    (hstr : ∀ p ∈ ps, pyStrip p = p) :
    roundSurvivors net ps = ps.filter (fun p => (probeOne net p).ok) := by
  unfold roundSurvivors
  rw [test_all_proxies_eq_map, List.filter_map, List.map_map]
  have h : ∀ p ∈ List.filter ((fun x => x.ok) ∘ probeOne net) ps,
      ((fun x => x.proxy) ∘ probeOne net) p = p := by
    intro p hp
    simp only [Function.comp_apply, probeOne_proxy]
    exact hstr p (List.mem_of_mem_filter hp)
  rw [List.map_congr_left h, List.map_id']
  rfl

theorem roundSurvivors_sublist (net : PyStr → NetEvent) (ps : List PyStr)
    (hstr : ∀ p ∈ ps, pyStrip p = p) :
    (roundSurvivors net ps).Sublist ps := by
  rw [roundSurvivors_eq_filter net ps hstr]
  exact List.filter_sublist ps

/-- C1: In each round of the stability loop over a working set of distinct
addresses, the consecutive-pass counter is incremented and the working set
left unchanged exactly when the set of surviving addresses equals the current
working set as a set.  (The code compares lengths, but survivors are always a
subsequence of the working set, so the length test coincides with set
equality.) -/
theorem step_increments_iff_full_pass (net : PyStr → NetEvent) (hasTS : Bool)
    (startTime : Rat) (st : LoopState) (hnd : st.current.Nodup)
    (hstr : ∀ p ∈ st.current, pyStrip p = p) :
    ((stepRound net hasTS startTime st).consecutive = st.consecutive + 1 ∧
      (stepRound net hasTS startTime st).current = st.current) ↔
    (∀ p, p ∈ roundSurvivors net st.current ↔ p ∈ st.current) := by
  have hfil := roundSurvivors_eq_filter net st.current hstr
  unfold stepRound
  rw [roundAvailWithLoc_fst, hfil]
  by_cases hlen :
      (st.current.filter (fun p => (probeOne net p).ok)).length = st.current.length
  · rw [if_pos hlen]
    constructor
    · intro _ p
      simp only [List.mem_filter, and_iff_left_iff_imp]
      intro hp
      exact List.filter_length_eq_length.mp hlen p hp
    · intro _
      exact ⟨rfl, rfl⟩
  · rw [if_neg hlen]
    constructor
    · rintro ⟨h1, -⟩
      exact absurd h1.symm (Nat.succ_ne_zero st.consecutive)
    · intro hset
      exfalso
      apply hlen
      rw [List.filter_length_eq_length]
      intro a ha
      exact (List.mem_filter.mp ((hset a).mpr ha)).2

theorem step_increments_iff_full_pass_witness :
    (stepRound netAllOk true 10 ⟨[pystr "1.2.3.4:80"], [], 0, 0⟩).consecutive = 0 + 1 ∧
    (stepRound netAllOk true 10 ⟨[pystr "1.2.3.4:80"], [], 0, 0⟩).current =
      [pystr "1.2.3.4:80"] :=
  (step_increments_iff_full_pass netAllOk true 10 ⟨[pystr "1.2.3.4:80"], [], 0, 0⟩
      (by decide) (by decide)).mpr (fun p => Iff.rfl)

theorem stepRound_current_cases (net : PyStr → NetEvent) (hasTS : Bool) (ts : Rat)
    (st : LoopState) :
    (stepRound net hasTS ts st).current = st.current ∨
    (stepRound net hasTS ts st).current = roundSurvivors net st.current := by
  unfold stepRound
  split
  · left; rfl
  · right; exact roundAvailWithLoc_fst net st.current

theorem stepRound_current_sublist (net : PyStr → NetEvent) (hasTS : Bool) (ts : Rat)
    (st : LoopState) (hstr : ∀ p ∈ st.current, pyStrip p = p) :
    (stepRound net hasTS ts st).current.Sublist st.current := by
  rcases stepRound_current_cases net hasTS ts st with h | h
  · rw [h]
  · rw [h]
    exact roundSurvivors_sublist net st.current hstr

theorem stepRound_strip (net : PyStr → NetEvent) (hasTS : Bool) (ts : Rat)
    (st : LoopState) (hstr : ∀ p ∈ st.current, pyStrip p = p) :
    ∀ p ∈ (stepRound net hasTS ts st).current, pyStrip p = p := by
  rcases stepRound_current_cases net hasTS ts st with h | h <;> rw [h]
  · exact hstr
  · rw [roundSurvivors_eq_filter net st.current hstr]
    intro p hp
    exact hstr p (List.mem_of_mem_filter hp)

/-- The working-set trace of a loop run (each executed round's pre-round
working set, followed by the final state's working set) is a descending chain
of sublists. -/
theorem loopGo_chain (netR : Nat → PyStr → NetEvent) (hasTS : Bool) (ts : Rat) :
    ∀ (fuel : Nat) (st : LoopState), (∀ p ∈ st.current, pyStrip p = p) →
      List.Chain' (fun a b : List PyStr => b.Sublist a)
        ((loopGo netR hasTS ts fuel st).2 ++ [(loopGo netR hasTS ts fuel st).1.current]) ∧
      ∀ H, ((loopGo netR hasTS ts fuel st).2 ++
          [(loopGo netR hasTS ts fuel st).1.current]).head? = some H →
        H.Sublist st.current := by
  intro fuel
  induction fuel with
  | zero =>
    intro st hstr
    refine ⟨by simp [loopGo], ?_⟩
    intro H hH
    simp [loopGo] at hH
    rw [← hH]
  | succ fuel ih =>
    intro st hstr
    by_cases h3 : 3 ≤ st.consecutive
    · simp only [loopGo, if_pos h3]
      refine ⟨by simp, ?_⟩
      intro H hH
      simp at hH
      rw [← hH]
    · by_cases hcur : st.current = []
      · simp only [loopGo, if_neg h3, if_pos hcur]
        refine ⟨?_, ?_⟩
        · simp [List.chain'_cons]
        · intro H hH
          simp at hH
          rw [← hH]
      · by_cases hsurv : roundSurvivors (netR (st.round + 1)) st.current = []
        · simp only [loopGo, if_neg h3, if_neg hcur, if_pos hsurv]
          refine ⟨?_, ?_⟩
          · simp only [List.cons_append, List.nil_append, List.chain'_cons,
              List.chain'_singleton, and_true]
            exact stepRound_current_sublist _ hasTS ts st hstr
          · intro H hH
            simp at hH
            rw [← hH]
        · have hstr' := stepRound_strip (netR (st.round + 1)) hasTS ts st hstr
          obtain ⟨ihc, ihh⟩ := ih (stepRound (netR (st.round + 1)) hasTS ts st) hstr'
          simp only [loopGo, if_neg h3, if_neg hcur, if_neg hsurv]
          refine ⟨?_, ?_⟩
          · rw [List.cons_append, List.chain'_cons']
            refine ⟨?_, ihc⟩
            intro b hb
            exact (ihh b hb).trans (stepRound_current_sublist _ hasTS ts st hstr)
          · intro H hH
            rw [List.cons_append, List.head?_cons, Option.some_inj] at hH
            rw [← hH]

/-- C2: Within one invocation of the stability loop the working set is
monotonically non-increasing: each round's successor working set is a
sublist (hence subset) of it, so sizes never grow across rounds. -/
theorem working_set_monotone (netR : Nat → PyStr → NetEvent) (hasTS : Bool)
    (ts : Rat) (maxRounds : Nat) (ws : List PyStr) (info : Registry)
    (hstr : ∀ p ∈ ws, pyStrip p = p) :
    List.Chain' (fun a b : List PyStr => b.Sublist a)
      ((runLoop netR hasTS ts maxRounds ⟨ws, info, 0, 0⟩).2 ++
        [(runLoop netR hasTS ts maxRounds ⟨ws, info, 0, 0⟩).1.current]) ∧
    List.Chain' (fun a b : List PyStr => b.length ≤ a.length)
      ((runLoop netR hasTS ts maxRounds ⟨ws, info, 0, 0⟩).2 ++
        [(runLoop netR hasTS ts maxRounds ⟨ws, info, 0, 0⟩).1.current]) := by
  have h := (loopGo_chain netR hasTS ts (maxRounds - 0) ⟨ws, info, 0, 0⟩ hstr).1
  exact ⟨h, h.imp (fun a b hab => List.Sublist.length_le hab)⟩

theorem working_set_monotone_witness :
    List.Chain' (fun a b : List PyStr => b.Sublist a)
      ((runLoop netDropOne true 10 30 ⟨[pystr "1.2.3.4:80", pystr "5.6.7.8:80"], [], 0, 0⟩).2 ++
        [(runLoop netDropOne true 10 30 ⟨[pystr "1.2.3.4:80", pystr "5.6.7.8:80"], [], 0, 0⟩).1.current]) ∧
    List.Chain' (fun a b : List PyStr => b.length ≤ a.length)
      ((runLoop netDropOne true 10 30 ⟨[pystr "1.2.3.4:80", pystr "5.6.7.8:80"], [], 0, 0⟩).2 ++
        [(runLoop netDropOne true 10 30 ⟨[pystr "1.2.3.4:80", pystr "5.6.7.8:80"], [], 0, 0⟩).1.current]) :=
  working_set_monotone netDropOne true 10 30 [pystr "1.2.3.4:80", pystr "5.6.7.8:80"] []
    (by decide)

theorem stepRound_consecutive_of_not_pass (net : PyStr → NetEvent) (hasTS : Bool)
    (ts : Rat) (st : LoopState)
    (h : (roundSurvivors net st.current).length ≠ st.current.length) :
    (stepRound net hasTS ts st).consecutive = 0 := by
  unfold stepRound
  simp only [roundAvailWithLoc_fst]
  rw [if_neg h]

theorem loopGo_trace_le (netR : Nat → PyStr → NetEvent) (hasTS : Bool) (ts : Rat) :
    ∀ (fuel : Nat) (st : LoopState), (loopGo netR hasTS ts fuel st).2.length ≤ fuel := by
  intro fuel
  induction fuel with
  | zero => intro st; simp [loopGo]
  | succ fuel ih =>
    intro st
    by_cases h3 : 3 ≤ st.consecutive
    · simp [loopGo, h3]
    · by_cases hcur : st.current = []
      · simp [loopGo, h3, hcur]
      · by_cases hsurv : roundSurvivors (netR (st.round + 1)) st.current = []
        · simp [loopGo, h3, hcur, hsurv]
        · simp only [loopGo, if_neg h3, if_neg hcur, if_neg hsurv, List.length_cons]
          exact Nat.succ_le_succ (ih _)

/-- C9: The stability loop executes at most `max_rounds` rounds; with
`max_rounds = 1` and a first round that is not a 100% pass, it ends in
EXHAUSTED after exactly one round and never starts a second. -/
theorem stability_loop_round_budget :
    (∀ (netR : Nat → PyStr → NetEvent) (hasTS : Bool) (ts : Rat) (maxRounds : Nat)
        (ws : List PyStr) (info : Registry),
      (runLoop netR hasTS ts maxRounds ⟨ws, info, 0, 0⟩).2.length ≤ maxRounds) ∧
    (∀ (netR : Nat → PyStr → NetEvent) (hasTS : Bool) (ts : Rat)
        (ws : List PyStr) (info : Registry),
      ws ≠ [] →
      (roundSurvivors (netR 1) ws).length ≠ ws.length →
      (runLoop netR hasTS ts 1 ⟨ws, info, 0, 0⟩).2.length = 1 ∧
      loopOutcome (runLoop netR hasTS ts 1 ⟨ws, info, 0, 0⟩).1 = .EXHAUSTED) := by
  constructor
  · intro netR hasTS ts maxRounds ws info
    exact loopGo_trace_le netR hasTS ts (maxRounds - 0) _
  · intro netR hasTS ts ws info hws hfail
    show (loopGo netR hasTS ts 1 ⟨ws, info, 0, 0⟩).2.length = 1 ∧
      loopOutcome (loopGo netR hasTS ts 1 ⟨ws, info, 0, 0⟩).1 = .EXHAUSTED
    have h3 : ¬ (3 ≤ (0 : Nat)) := by decide
    have hcons := stepRound_consecutive_of_not_pass (netR 1) hasTS ts ⟨ws, info, 0, 0⟩ hfail
    by_cases hsurv : roundSurvivors (netR 1) ws = []
    · simp only [loopGo, h3, if_false, if_neg hws, hsurv, if_true, List.length_cons,
        List.length_nil, loopOutcome]
      refine ⟨trivial, ?_⟩
      rw [hcons]
      rfl
    · simp only [loopGo, h3, if_false, if_neg hws, if_neg hsurv, List.length_cons,
        List.length_nil, loopOutcome]
      refine ⟨trivial, ?_⟩
      rw [hcons]
      rfl

theorem stability_loop_round_budget_witness :
    (runLoop netDropOne true 10 30 ⟨[pystr "1.2.3.4:80"], [], 0, 0⟩).2.length ≤ 30 ∧
    (runLoop netDropOne true 10 1
        ⟨[pystr "1.2.3.4:80", pystr "5.6.7.8:80"], [], 0, 0⟩).2.length = 1 ∧
    loopOutcome (runLoop netDropOne true 10 1
        ⟨[pystr "1.2.3.4:80", pystr "5.6.7.8:80"], [], 0, 0⟩).1 = .EXHAUSTED :=
  ⟨stability_loop_round_budget.1 netDropOne true 10 30 [pystr "1.2.3.4:80"] [],
   stability_loop_round_budget.2 netDropOne true 10
     [pystr "1.2.3.4:80", pystr "5.6.7.8:80"] [] (by decide) (by decide)⟩

theorem filter_eq_self_length_one {l : List PyStr} {p : PyStr}
    (hnd : l.Nodup) (hp : p ∈ l) :
    (l.filter (fun q => q = p)).length = 1 := by
  induction l with
  | nil => simp at hp
  | cons a l ih =>
    rw [List.nodup_cons] at hnd
    rcases List.mem_cons.mp hp with heq | hmem
    · subst heq
      rw [List.filter_cons]
      have hnil : l.filter (fun q => q = p) = [] := by
        rw [List.filter_eq_nil_iff]
        intro b hb
        simp only [decide_eq_true_eq]
        intro hba
        exact hnd.1 (hba ▸ hb)
      simp [hnil]
    · have hne : a ≠ p := fun h => hnd.1 (h ▸ hmem)
      rw [List.filter_cons]
      simp only [decide_eq_true_eq]
      rw [if_neg (by simpa using hne)]
      exact ih hnd.2 hmem

/-- C5: One probing round returns exactly one outcome per input address (same
cardinality, in input order, each distinct address exactly once), even when a
probe's exception escapes the task: `gather(..., return_exceptions=True)`
converts it into a failed outcome instead of aborting the round. -/
theorem run_round_one_outcome_per_address (net : PyStr → NetEvent)
    (proxies : List PyStr) (hnd : (proxies.map pyStrip).Nodup) :
    (test_all_proxies net proxies).length = proxies.length ∧
    (test_all_proxies net proxies).map (fun o => o.proxy) = proxies.map pyStrip ∧
    ∀ p ∈ proxies.map pyStrip,
      (((test_all_proxies net proxies).map (fun o => o.proxy)).filter
        (fun q => q = p)).length = 1 := by
  have hmap : (test_all_proxies net proxies).map (fun o => o.proxy) =
      proxies.map pyStrip := by
    rw [test_all_proxies_eq_map, List.map_map]
    exact List.map_congr_left (fun p _ => probeOne_proxy net p)
  refine ⟨?_, hmap, ?_⟩
  · rw [test_all_proxies_eq_map, List.length_map]
  · intro p hp
    rw [hmap]
    exact filter_eq_self_length_one hnd hp

theorem run_round_one_outcome_per_address_witness :
    (test_all_proxies netMixed
        [pystr "1.2.3.4:80", pystr "5.6.7.8:80", pystr "9.9.9.9:80"]).length = 3 ∧
    (test_all_proxies netMixed
        [pystr "1.2.3.4:80", pystr "5.6.7.8:80", pystr "9.9.9.9:80"]).map
      (fun o => o.proxy) =
      [pystr "1.2.3.4:80", pystr "5.6.7.8:80", pystr "9.9.9.9:80"].map pyStrip ∧
    ∀ p ∈ [pystr "1.2.3.4:80", pystr "5.6.7.8:80", pystr "9.9.9.9:80"].map pyStrip,
      (((test_all_proxies netMixed
          [pystr "1.2.3.4:80", pystr "5.6.7.8:80", pystr "9.9.9.9:80"]).map
        (fun o => o.proxy)).filter (fun q => q = p)).length = 1 :=
  run_round_one_outcome_per_address netMixed
    [pystr "1.2.3.4:80", pystr "5.6.7.8:80", pystr "9.9.9.9:80"] (by decide)

theorem mergeRegistry_foldl_lookup (existing : Registry) (now : Rat) (p : PyStr)
    (e : RegistryEntry) (hmem : dictLookup p existing = some e) :
    ∀ (avail : List (PyStr × Option PyStr)) (acc : Registry),
      (p ∈ avail.map Prod.fst ∨ dictLookup p acc = some e) →
      dictLookup p
        (avail.foldl
          (fun cleaned pr =>
            match dictLookup pr.1 existing with
            | some e' => pyDictSet cleaned pr.1 e'
            | none => pyDictSet cleaned pr.1 ⟨now, .jstr (locOrNA pr.2)⟩)
          acc) = some e := by
  intro avail
  induction avail with
  | nil =>
    intro acc h
    rcases h with h | h
    · simp at h
    · simpa using h
  | cons pr rest ih =>
    intro acc h
    rw [List.foldl_cons]
    apply ih
    by_cases hpq : pr.1 = p
    · right
      rw [hpq, hmem]
      exact dictLookup_pyDictSet_self acc p e
    · rcases h with h | h
      · rw [List.map_cons, List.mem_cons] at h
        rcases h with heq | hmemr
        · exact absurd heq.symm hpq
        · left
          exact hmemr
      · right
        cases hlk : dictLookup pr.1 existing with
        | some e' =>
          show dictLookup p (pyDictSet acc pr.1 e') = some e
          rw [dictLookup_pyDictSet_other acc pr.1 p e' (Ne.symm hpq)]
          exact h
        | none =>
          show dictLookup p (pyDictSet acc pr.1 ⟨now, .jstr (locOrNA pr.2)⟩) = some e
          rw [dictLookup_pyDictSet_other acc pr.1 p _ (Ne.symm hpq)]
          exact h

theorem mergeRegistry_foldl_lookup_none (existing : Registry) (now : Rat) (p : PyStr) :
    ∀ (avail : List (PyStr × Option PyStr)) (acc : Registry),
      p ∉ avail.map Prod.fst → dictLookup p acc = none →
      dictLookup p
        (avail.foldl
          (fun cleaned pr =>
            match dictLookup pr.1 existing with
            | some e' => pyDictSet cleaned pr.1 e'
            | none => pyDictSet cleaned pr.1 ⟨now, .jstr (locOrNA pr.2)⟩)
          acc) = none := by
  intro avail
  induction avail with
  | nil =>
    intro acc _ hacc
    simpa using hacc
  | cons pr rest ih =>
    intro acc hns hacc
    rw [List.foldl_cons]
    have hpq : pr.1 ≠ p := by
      intro hh
      exact hns (by simp [hh])
    have hns' : p ∉ rest.map Prod.fst := by
      intro hh
      exact hns (by simp [hh])
    apply ih _ hns'
    cases hlk : dictLookup pr.1 existing with
    | some e' =>
      show dictLookup p (pyDictSet acc pr.1 e') = none
      rw [dictLookup_pyDictSet_other acc pr.1 p e' (Ne.symm hpq)]
      exact hacc
    | none =>
      show dictLookup p (pyDictSet acc pr.1 ⟨now, .jstr (locOrNA pr.2)⟩) = none
      rw [dictLookup_pyDictSet_other acc pr.1 p _ (Ne.symm hpq)]
      exact hacc

/-- C4: For every address that survives a run and is already present in the
loaded registry, the merge keeps its entry (timestamp and stored location)
unchanged, regardless of the location observed in this run. -/
theorem merge_preserves_existing_entry (existing : Registry)
    (avail : List (PyStr × Option PyStr)) (now : Rat) (p : PyStr) (e : RegistryEntry)
    (hmem : dictLookup p existing = some e) (hsurv : p ∈ avail.map Prod.fst) :
    dictLookup p (mergeRegistry existing avail now) = some e :=
  mergeRegistry_foldl_lookup existing now p e hmem avail [] (Or.inl hsurv)

theorem merge_preserves_existing_entry_witness :
    dictLookup (pystr "1.2.3.4:80")
      (mergeRegistry [(pystr "1.2.3.4:80", ⟨3, .jstr (pystr "US")⟩)]
        [(pystr "1.2.3.4:80", some (pystr "DE"))] 99) =
      some ⟨3, .jstr (pystr "US")⟩ :=
  merge_preserves_existing_entry
    [(pystr "1.2.3.4:80", ⟨3, .jstr (pystr "US")⟩)]
    [(pystr "1.2.3.4:80", some (pystr "DE"))] 99
    (pystr "1.2.3.4:80") ⟨3, .jstr (pystr "US")⟩ rfl (by simp)

theorem updateInfo_preserves (hasTS : Bool) (ts : Rat) (info : Registry)
    (avail : List (PyStr × Option PyStr)) (p : PyStr) (e : RegistryEntry)
    (h : dictLookup p info = some e) :
    dictLookup p (updateInfo hasTS ts info avail) = some e := by
  unfold updateInfo
  split
  · have hgen : ∀ (l : List (PyStr × Option PyStr)) (d : Registry),
        dictLookup p d = some e →
        dictLookup p
          (l.foldl
            (fun d pr =>
              if dictContains pr.1 d then d
              else pyDictSet d pr.1 ⟨ts, .jstr (locOrNA pr.2)⟩)
            d) = some e := by
      intro l
      induction l with
      | nil => intro d hd; simpa using hd
      | cons pr rest ih =>
        intro d hd
        rw [List.foldl_cons]
        apply ih
        by_cases hc : dictContains pr.1 d
        · rw [if_pos hc]; exact hd
        · rw [if_neg hc]
          by_cases hpq : pr.1 = p
          · exact absurd (by simp [dictContains, hpq, h, hd]) hc
          · rw [dictLookup_pyDictSet_other d pr.1 p _ (Ne.symm hpq)]
            exact hd
    exact hgen avail info h
  · exact h

theorem stepRound_info (net : PyStr → NetEvent) (hasTS : Bool) (ts : Rat)
    (st : LoopState) :
    (stepRound net hasTS ts st).proxyInfo =
      updateInfo hasTS ts st.proxyInfo (roundAvailWithLoc net st.current) := by
  unfold stepRound
  split <;> rfl

theorem loopGo_preserves_info (netR : Nat → PyStr → NetEvent) (hasTS : Bool)
    (ts : Rat) :
    ∀ (fuel : Nat) (st : LoopState) (p : PyStr) (e : RegistryEntry),
      dictLookup p st.proxyInfo = some e →
      dictLookup p (loopGo netR hasTS ts fuel st).1.proxyInfo = some e := by
  intro fuel
  induction fuel with
  | zero => intro st p e h; simpa [loopGo] using h
  | succ fuel ih =>
    intro st p e h
    by_cases h3 : 3 ≤ st.consecutive
    · simpa [loopGo, h3] using h
    · by_cases hcur : st.current = []
      · simpa [loopGo, h3, hcur] using h
      · have hstep : dictLookup p (stepRound (netR (st.round + 1)) hasTS ts st).proxyInfo
            = some e := by
          rw [stepRound_info]
          exact updateInfo_preserves hasTS ts st.proxyInfo _ p e h
        by_cases hsurv : roundSurvivors (netR (st.round + 1)) st.current = []
        · simpa [loopGo, h3, hcur, hsurv] using hstep
        · simp only [loopGo, if_neg h3, if_neg hcur, if_neg hsurv]
          exact ih _ p e hstep

/-- The saved registry, re-expressed through the named round helpers (pure
unfolding of definitions). -/
theorem runSavedRegistry_eq (netR : Nat → PyStr → NetEvent) (netF : PyStr → NetEvent)
    (hasOutput : Bool) (startTime now : Rat) (maxRounds : Nat) (loaded : Registry)
    (proxies : List PyStr) :
    runSavedRegistry netR netF hasOutput startTime now maxRounds loaded proxies =
      if hasOutput = true ∧
          (runLoop netR hasOutput startTime maxRounds ⟨proxies, loaded, 0, 0⟩).1.current ≠ [] then
        if (roundSurvivors netF
            (runLoop netR hasOutput startTime maxRounds ⟨proxies, loaded, 0, 0⟩).1.current).isEmpty then
          none
        else
          some (mergeRegistry
            (runLoop netR hasOutput startTime maxRounds ⟨proxies, loaded, 0, 0⟩).1.proxyInfo
            (roundAvailWithLoc netF
              (runLoop netR hasOutput startTime maxRounds ⟨proxies, loaded, 0, 0⟩).1.current)
            now)
      else none := rfl

/-- C3 (amended): On a run that saves a registry (output requested, at least
one final-confirmation survivor), a (address, entry) pair of the loaded
registry is preserved in the saved registry iff the address survives the
final confirmation round; entries of non-surviving addresses are dropped from
the saved registry even though other proxies survive. -/
theorem run_preserves_surviving_entries (netR : Nat → PyStr → NetEvent)
    (netF : PyStr → NetEvent) (startTime now : Rat) (maxRounds : Nat)
    (loaded : Registry) (proxies : List PyStr) (R : Registry) (p : PyStr)
    (e : RegistryEntry)
    (hrun : runSavedRegistry netR netF true startTime now maxRounds loaded proxies = some R)
    (hload : dictLookup p loaded = some e) :
    (p ∈ finalSurvivors netR netF true startTime maxRounds loaded proxies →
      dictLookup p R = some e) ∧
    (p ∉ finalSurvivors netR netF true startTime maxRounds loaded proxies →
      dictLookup p R = none) := by
  rw [runSavedRegistry_eq] at hrun
  split at hrun
  · split at hrun
    · exact absurd hrun (by simp)
    · have hR := Option.some.inj hrun
      have hinfo : dictLookup p
          (runLoop netR true startTime maxRounds ⟨proxies, loaded, 0, 0⟩).1.proxyInfo
          = some e :=
        loopGo_preserves_info netR true startTime (maxRounds - 0)
          ⟨proxies, loaded, 0, 0⟩ p e hload
      constructor
      · intro hmem
        rw [← hR]
        refine mergeRegistry_foldl_lookup _ now p e hinfo _ [] (Or.inl ?_)
        rw [roundAvailWithLoc_fst]
        exact hmem
      · intro hnot
        rw [← hR]
        refine mergeRegistry_foldl_lookup_none _ now p _ [] ?_ rfl
        rw [roundAvailWithLoc_fst]
        exact hnot
  · exact absurd hrun (by simp)

/-- Counterexample to C3 as stated: with output requested, the loaded
registry holding an entry for `1.2.3.4:80`, and a run in which `1.2.3.4:80`
fails while `5.6.7.8:80` survives every round including the final
confirmation round, the run saves a registry (so the final round has a
survivor) from which the loaded pair has been destroyed. -/
theorem run_drops_failed_entry_counterexample :
    runSavedRegistry netKeepOther (netKeepOther 0) true 10 20 30
        [(pystr "1.2.3.4:80", RegistryEntry.mk 5 (.jstr (pystr "US")))]
        [pystr "1.2.3.4:80", pystr "5.6.7.8:80"] =
      some [(pystr "5.6.7.8:80", RegistryEntry.mk 10 (.jstr (pystr "DE")))] ∧
    dictLookup (pystr "1.2.3.4:80")
        [(pystr "1.2.3.4:80", RegistryEntry.mk 5 (.jstr (pystr "US")))] =
      some (RegistryEntry.mk 5 (.jstr (pystr "US"))) ∧
    dictLookup (pystr "1.2.3.4:80")
        [(pystr "5.6.7.8:80", RegistryEntry.mk 10 (.jstr (pystr "DE")))] = none :=
  ⟨rfl, rfl, rfl⟩

theorem run_preserves_surviving_entries_witness :
    (pystr "5.6.7.8:80" ∈ finalSurvivors netKeepOther (netKeepOther 0) true 10 30
        [(pystr "5.6.7.8:80", RegistryEntry.mk 5 (.jstr (pystr "US")))]
        [pystr "1.2.3.4:80", pystr "5.6.7.8:80"] →
      dictLookup (pystr "5.6.7.8:80")
        [(pystr "5.6.7.8:80", RegistryEntry.mk 5 (.jstr (pystr "US")))] =
        some (RegistryEntry.mk 5 (.jstr (pystr "US")))) ∧
    (pystr "5.6.7.8:80" ∉ finalSurvivors netKeepOther (netKeepOther 0) true 10 30
        [(pystr "5.6.7.8:80", RegistryEntry.mk 5 (.jstr (pystr "US")))]
        [pystr "1.2.3.4:80", pystr "5.6.7.8:80"] →
      dictLookup (pystr "5.6.7.8:80")
        [(pystr "5.6.7.8:80", RegistryEntry.mk 5 (.jstr (pystr "US")))] = none) :=
  run_preserves_surviving_entries netKeepOther (netKeepOther 0) 10 20 30
    [(pystr "5.6.7.8:80", RegistryEntry.mk 5 (.jstr (pystr "US")))]
    [pystr "1.2.3.4:80", pystr "5.6.7.8:80"]
    [(pystr "5.6.7.8:80", RegistryEntry.mk 5 (.jstr (pystr "US")))]
    (pystr "5.6.7.8:80") (RegistryEntry.mk 5 (.jstr (pystr "US"))) rfl rfl

theorem insertByKey_perm (x : PyStr × α) (l : List (PyStr × α)) :
    (insertByKey x l).Perm (x :: l) := by
  induction l with
  | nil => exact List.Perm.refl _
  | cons y ys ih =>
    unfold insertByKey
    split
    · exact List.Perm.refl _
    · exact (List.Perm.cons y ih).trans (List.Perm.swap x y ys)

theorem sortByKey_perm (l : List (PyStr × α)) : (sortByKey l).Perm l := by
  induction l with
  | nil => exact List.Perm.refl _
  | cons x xs ih =>
    exact (insertByKey_perm x (sortByKey xs)).trans (List.Perm.cons x ih)

theorem insertByKey_map (f : α → β) (x : PyStr × α) (l : List (PyStr × α)) :
    insertByKey (x.1, f x.2) (l.map (fun kv => (kv.1, f kv.2))) =
      (insertByKey x l).map (fun kv => (kv.1, f kv.2)) := by
  induction l with
  | nil => rfl
  | cons y ys ih =>
    simp only [List.map_cons]
    unfold insertByKey
    by_cases h : strLE x.1 y.1
    · simp [h]
    · simp [h, ih]

theorem sortByKey_map (f : α → β) (l : List (PyStr × α)) :
    sortByKey (l.map (fun kv => (kv.1, f kv.2))) =
      (sortByKey l).map (fun kv => (kv.1, f kv.2)) := by
  induction l with
  | nil => rfl
  | cons x xs ih =>
    simp only [List.map_cons, sortByKey]
    rw [ih, insertByKey_map]

theorem dictLookup_append_of_none (acc tail : List (PyStr × α)) (k : PyStr)
    (h : dictLookup k acc = none) :
    dictLookup k (acc ++ tail) = dictLookup k tail := by
  induction acc with
  | nil => rfl
  | cons hd rest ih =>
    obtain ⟨a, b⟩ := hd
    by_cases ha : a = k
    · simp [dictLookup, ha] at h
    · simp only [dictLookup, if_neg ha] at h
      simp only [List.cons_append, dictLookup, if_neg ha]
      exact ih h

/-- Decoding the encoded records: `load`'s cleaning loop rebuilds exactly the
records that were saved, in file order, provided the keys are distinct. -/
theorem cleanEntries_encoded (S : Registry) :
    ∀ acc : Registry,
      (∀ k ∈ S.map Prod.fst, dictLookup k acc = none) →
      (S.map Prod.fst).Nodup →
      cleanEntries (S.map (fun kv => (kv.1, encodeEntry kv.2))) acc = some (acc ++ S) := by
  induction S with
  | nil => intro acc _ _; simp [cleanEntries]
  | cons kv rest ih =>
    obtain ⟨k, e⟩ := kv
    intro acc hdis hnd
    rw [List.map_cons]
    have hstep :
        cleanEntries ((k, encodeEntry e) :: rest.map (fun kv => (kv.1, encodeEntry kv.2))) acc =
          cleanEntries (rest.map (fun kv => (kv.1, encodeEntry kv.2))) (pyDictSet acc k e) :=
      rfl
    rw [hstep]
    have hkacc : dictLookup k acc = none :=
      hdis k (by rw [List.map_cons]; exact List.mem_cons_self _ _)
    rw [pyDictSet_of_absent acc k e hkacc]
    rw [List.map_cons, List.nodup_cons] at hnd
    have hdis' : ∀ k' ∈ rest.map Prod.fst, dictLookup k' (acc ++ [(k, e)]) = none := by
      intro k' hk'
      have hne : k ≠ k' := fun hh => hnd.1 (hh ▸ hk')
      rw [dictLookup_append_of_none acc [(k, e)] k'
        (hdis k' (by rw [List.map_cons]; exact List.mem_cons_of_mem _ hk'))]
      simp [dictLookup, hne]
    rw [ih (acc ++ [(k, e)]) hdis' hnd.2]
    simp

/-- C6: Registry persistence round-trips: for a mapping with well-formed
entries (numeric `added_at`, string-or-null `location`, distinct keys),
loading the saved file yields the same mapping (as a Python dict, i.e. up to
the key reordering done by `sort_keys=True`). -/
theorem registry_save_load_roundtrip (M : Registry)
    (hnd : (M.map Prod.fst).Nodup)
    (hloc : ∀ kv ∈ M, locWF kv.2.location = true) :
    (load_timestamps (save_timestamps M)).Perm M := by
  have hdis : ∀ k ∈ (sortByKey M).map Prod.fst, dictLookup k ([] : Registry) = none :=
    fun k _ => rfl
  have hnd' : ((sortByKey M).map Prod.fst).Nodup :=
    (((sortByKey_perm M).map Prod.fst).nodup_iff).mpr hnd
  have hclean := cleanEntries_encoded (sortByKey M) [] hdis hnd'
  have hload : load_timestamps (save_timestamps M) = sortByKey M := by
    rw [show save_timestamps M =
        JValue.jobj ((sortByKey M).map (fun kv => (kv.1, encodeEntry kv.2))) from by
      unfold save_timestamps; rw [sortByKey_map]]
    show (cleanEntries ((sortByKey M).map (fun kv => (kv.1, encodeEntry kv.2))) []).getD []
      = sortByKey M
    rw [hclean]
    rfl
  rw [hload]
  exact sortByKey_perm M

theorem registry_save_load_roundtrip_witness :
    (load_timestamps (save_timestamps
      [(pystr "b.example.com:2", RegistryEntry.mk 3 (.jstr (pystr "US"))),
       (pystr "a.example.com:1", RegistryEntry.mk 1 .jnull)])).Perm
      [(pystr "b.example.com:2", RegistryEntry.mk 3 (.jstr (pystr "US"))),
       (pystr "a.example.com:1", RegistryEntry.mk 1 .jnull)] :=
  registry_save_load_roundtrip
    [(pystr "b.example.com:2", RegistryEntry.mk 3 (.jstr (pystr "US"))),
     (pystr "a.example.com:1", RegistryEntry.mk 1 .jnull)]
    (by decide) (by decide)

theorem not_any_eq_all_not (l : List α) (f : α → Bool) :
    (!(l.any f)) = l.all (fun x => !(f x)) := by
  induction l with
  | nil => rfl
  | cons a l ih => simp [List.any_cons, List.all_cons, ih]

/-- C7: The CIDR filter returns exactly the subsequence of addresses
satisfying the keep predicate of the spec (fail-open on host extraction
failure; otherwise keep iff the host is not a valid IP address or lies in
none of the excluded networks), preserving order; and the filter is
idempotent. -/
theorem cidr_filter_keep_characterization {IPAddr Network : Type}
    (ipParse : PyStr → Option IPAddr) (inNet : IPAddr → Network → Bool)
    (proxies : List PyStr) (skip : List Network) :
    filter_proxies_by_cidr ipParse inNet proxies skip =
      proxies.filter (keepSpec ipParse inNet skip) ∧
    filter_proxies_by_cidr ipParse inNet
        (filter_proxies_by_cidr ipParse inNet proxies skip) skip =
      filter_proxies_by_cidr ipParse inNet proxies skip := by
  have hpt : ∀ p,
      (match extract_host_from_proxy p with
        | none => true
        | some host => !(is_ip_in_cidr_list ipParse inNet host skip)) =
      keepSpec ipParse inNet skip p := by
    intro p
    unfold keepSpec is_ip_in_cidr_list
    split
    · rfl
    · split
      next ip heq =>
        rw [heq]
        exact not_any_eq_all_not skip _
      next heq =>
        rw [heq]
        rfl
  have hmain : ∀ ps, filter_proxies_by_cidr ipParse inNet ps skip =
      ps.filter (keepSpec ipParse inNet skip) := by
    intro ps
    unfold filter_proxies_by_cidr
    by_cases hskip : skip.isEmpty
    · rw [if_pos hskip]
      have hnil : skip = [] := List.isEmpty_iff.mp hskip
      subst hnil
      symm
      rw [List.filter_eq_self]
      intro a _
      unfold keepSpec
      split
      · rfl
      · split
        · rfl
        · rfl
    · rw [if_neg hskip]
      exact List.filter_congr (fun p _ => hpt p)
  refine ⟨hmain proxies, ?_⟩
  rw [hmain, hmain]
  rw [List.filter_eq_self]
  intro a ha
  exact (List.mem_filter.mp ha).2

theorem rsplitColon_of_not_mem (l : PyStr) (h : ':' ∉ l) : rsplitColon l = none := by
  induction l with
  | nil => rfl
  | cons c rest ih =>
    have hc : c ≠ ':' := fun hh => h (hh ▸ List.mem_cons_self c rest)
    have hr : ':' ∉ rest := fun hh => h (List.mem_cons_of_mem c hh)
    unfold rsplitColon
    rw [ih hr]
    simp [hc]

theorem rsplitColon_append (host portStr : PyStr) (h : ':' ∉ portStr) :
    rsplitColon (host ++ ':' :: portStr) = some (host, portStr) := by
  induction host with
  | nil =>
    show rsplitColon (':' :: portStr) = some ([], portStr)
    unfold rsplitColon
    rw [rsplitColon_of_not_mem portStr h]
    simp
  | cons c rest ih =>
    show rsplitColon (c :: (rest ++ ':' :: portStr)) = some (c :: rest, portStr)
    unfold rsplitColon
    rw [ih]

theorem partitionBracketColon_append (a b : PyStr) (h : ']' ∉ a) :
    partitionBracketColon (a ++ ']' :: ':' :: b) = some (a, b) := by
  induction a with
  | nil =>
    show partitionBracketColon (']' :: ':' :: b) = some ([], b)
    unfold partitionBracketColon
    simp
  | cons c rest ih =>
    have hc : c ≠ ']' := fun hh => h (hh ▸ List.mem_cons_self c rest)
    have hr : ']' ∉ rest := fun hh => h (List.mem_cons_of_mem c hh)
    show partitionBracketColon (c :: (rest ++ ']' :: ':' :: b)) = some (c :: rest, b)
    unfold partitionBracketColon
    rw [if_neg (by rintro ⟨hh, -⟩; exact hc hh)]
    rw [ih hr]
    rfl

theorem partitionBracketColon_some_occurrence :
    ∀ (s : PyStr) (pr : PyStr × PyStr), partitionBracketColon s = some pr →
      ∃ u v : PyStr, s = u ++ ']' :: ':' :: v := by
  intro s
  induction s with
  | nil => intro pr h; simp [partitionBracketColon] at h
  | cons c rest ih =>
    intro pr h
    unfold partitionBracketColon at h
    by_cases hc : c = ']' ∧ rest.headD ' ' = ':'
    · obtain ⟨hc1, hc2⟩ := hc
      cases rest with
      | nil => simp at hc2
      | cons d rest' =>
        simp only [List.headD_cons] at hc2
        exact ⟨[], rest', by rw [hc1, hc2]; rfl⟩
    · rw [if_neg hc] at h
      cases hsub : partitionBracketColon rest with
      | none => rw [hsub] at h; simp at h
      | some pr' =>
        obtain ⟨u, v, huv⟩ := ih pr' hsub
        exact ⟨c :: u, v, by rw [huv]; rfl⟩

theorem pyInt?_pyStrip (s : PyStr) : pyInt? (pyStrip s) = pyInt? s := by
  unfold pyInt?
  rw [pyStrip_idem]

theorem pyStrip_ne_nil_of_pyInt {s : PyStr} {n : Int} (h : pyInt? s = some n) :
    pyStrip s ≠ [] := by
  intro hnil
  unfold pyInt? at h
  rw [hnil] at h
  simp [pyNatDigits?] at h

theorem ne_nil_of_pyInt {s : PyStr} {n : Int} (h : pyInt? s = some n) : s ≠ [] := by
  intro hnil
  subst hnil
  exact pyStrip_ne_nil_of_pyInt h rfl

theorem checkHost_true {IPAddr : Type} (ipParse : PyStr → Option IPAddr) (host : PyStr)
    (hOK : host = pystr "localhost" ∨ (ipParse host).isSome = true ∨
      (host.all domainChar && decide (host.length ≤ 253)) = true) :
    checkHost ipParse host = true := by
  unfold checkHost
  rcases hOK with h | h | h
  · rw [if_pos h]
  · by_cases hl : host = pystr "localhost"
    · rw [if_pos hl]
    · rw [if_neg hl, if_pos h]
  · by_cases hl : host = pystr "localhost"
    · rw [if_pos hl]
    · rw [if_neg hl]
      by_cases hip : (ipParse host).isSome = true
      · rw [if_pos hip]
      · rw [if_neg hip, if_pos h]

theorem checkHostPort_true {IPAddr : Type} (ipParse : PyStr → Option IPAddr)
    (host portStr : PyStr) (n : Int)
    (hhs : pyStrip host = host) (hne : host ≠ [])
    (hport : pyInt? portStr = some n) (h1 : 1 ≤ n) (h2 : n ≤ 65535)
    (hOK : host = pystr "localhost" ∨ (ipParse host).isSome = true ∨
      (host.all domainChar && decide (host.length ≤ 253)) = true) :
    checkHostPort ipParse host portStr = true := by
  unfold checkHostPort
  rw [hhs]
  have hpsne : pyStrip portStr ≠ [] := pyStrip_ne_nil_of_pyInt hport
  rw [if_neg (by rintro (h | h); exact hne h; exact hpsne h)]
  rw [pyInt?_pyStrip, hport]
  show (if ¬ (1 ≤ n ∧ n ≤ 65535) then false else checkHost ipParse host) = true
  rw [if_neg (not_not_intro ⟨h1, h2⟩)]
  exact checkHost_true ipParse host hOK

theorem checkHostPort_range_false {IPAddr : Type} (ipParse : PyStr → Option IPAddr)
    (host portStr : PyStr) (n : Int)
    (hport : pyInt? portStr = some n) (hrange : n < 1 ∨ 65535 < n) :
    checkHostPort ipParse host portStr = false := by
  unfold checkHostPort
  by_cases hh : pyStrip host = []
  · rw [if_pos (Or.inl hh)]
  · have hpsne : pyStrip portStr ≠ [] := pyStrip_ne_nil_of_pyInt hport
    rw [if_neg (by rintro (h | h); exact hh h; exact hpsne h)]
    rw [pyInt?_pyStrip, hport]
    show (if ¬ (1 ≤ n ∧ n ≤ 65535) then false else checkHost ipParse (pyStrip host)) = false
    rw [if_pos (by rintro ⟨ha, hb⟩; rcases hrange with h | h <;> omega)]

theorem partitionBracketColon_bracket (h b : PyStr) (hh : ']' ∉ h) :
    partitionBracketColon ('[' :: (h ++ ']' :: ':' :: b)) = some ('[' :: h, b) := by
  have hmem : ']' ∉ ('[' :: h) := by
    intro hm
    rcases List.mem_cons.mp hm with he | hm2
    · exact absurd he (by decide)
    · exact hh hm2
  have hp := partitionBracketColon_append ('[' :: h) b hmem
  simpa [List.cons_append] using hp

/-- C8: `validate_proxy` accepts `host:port` (and `[host]:port`) whenever the
port parses as an integer in [1,65535] and the host is `localhost`, an IP
literal, or a plausible domain; it rejects every input whose port is outside
[1,65535], the empty input, inputs without a colon, and inputs with a leading
`[` not followed by a matching `]:`. -/
theorem validate_proxy_accepts_rejects :
    ∀ {IPAddr : Type} (ipParse : PyStr → Option IPAddr),
    (∀ (host portStr : PyStr) (n : Int),
      pyStrip host = host → host ≠ [] → host.headD ' ' ≠ '[' →
      ':' ∉ portStr → pyInt? portStr = some n → 1 ≤ n → n ≤ 65535 →
      (host = pystr "localhost" ∨ (ipParse host).isSome = true ∨
        (host.all domainChar && decide (host.length ≤ 253)) = true) →
      validate_proxy ipParse (host ++ ':' :: portStr) = true) ∧
    (∀ (h portStr : PyStr) (n : Int),
      pyStrip h = h → h ≠ [] → ']' ∉ h →
      pyInt? portStr = some n → 1 ≤ n → n ≤ 65535 →
      (h = pystr "localhost" ∨ (ipParse h).isSome = true ∨
        (h.all domainChar && decide (h.length ≤ 253)) = true) →
      validate_proxy ipParse ('[' :: (h ++ ']' :: ':' :: portStr)) = true) ∧
    (∀ (host portStr : PyStr) (n : Int),
      host.headD ' ' ≠ '[' → ':' ∉ portStr → pyInt? portStr = some n →
      (n < 1 ∨ 65535 < n) →
      validate_proxy ipParse (host ++ ':' :: portStr) = false) ∧
    (∀ (h portStr : PyStr) (n : Int),
      ']' ∉ h → pyInt? portStr = some n → (n < 1 ∨ 65535 < n) →
      validate_proxy ipParse ('[' :: (h ++ ']' :: ':' :: portStr)) = false) ∧
    (validate_proxy ipParse [] = false ∧
      ∀ s : PyStr, ':' ∉ s → validate_proxy ipParse s = false) ∧
    (∀ s : PyStr, s.headD ' ' = '[' → (¬ ∃ u v : PyStr, s = u ++ ']' :: ':' :: v) →
      validate_proxy ipParse s = false) := by
  intro IPAddr ipParse
  refine ⟨?_, ?_, ?_, ?_, ⟨?_, ?_⟩, ?_⟩
  · -- unbracketed acceptance
    intro host portStr n hhs hne hhead hcol hport h1 h2 hOK
    unfold validate_proxy
    rw [if_neg (by
      rintro (hnil | hnc)
      · exact absurd (List.append_eq_nil.mp hnil).2 (by simp)
      · exact hnc (List.mem_append.mpr (Or.inr (List.mem_cons_self ':' portStr))))]
    rw [if_neg (by
      cases host with
      | nil => exact absurd rfl hne
      | cons c t => simpa [List.cons_append] using hhead)]
    rw [rsplitColon_append host portStr hcol]
    show checkHostPort ipParse host portStr = true
    exact checkHostPort_true ipParse host portStr n hhs hne hport h1 h2 hOK
  · -- bracketed acceptance
    intro h portStr n hhs hne hnrb hport h1 h2 hOK
    unfold validate_proxy
    rw [if_neg (by
      rintro (hnil | hnc)
      · exact absurd hnil (by simp)
      · exact hnc (List.mem_cons_of_mem '['
          (List.mem_append.mpr (Or.inr (List.mem_cons_of_mem ']'
            (List.mem_cons_self ':' portStr))))))]
    rw [if_pos (by rw [List.headD_cons])]
    rw [if_neg (not_not_intro (List.mem_cons_of_mem '['
      (List.mem_append.mpr (Or.inr (List.mem_cons_self ']' (':' :: portStr))))))]
    rw [partitionBracketColon_bracket h portStr hnrb]
    show (if ('[' :: h) = [] ∨ portStr = [] then false
          else checkHostPort ipParse (('[' :: h).drop 1) portStr) = true
    rw [if_neg (by
      rintro (hnil | hnil)
      · exact absurd hnil (by simp)
      · exact absurd hnil (ne_nil_of_pyInt hport))]
    show checkHostPort ipParse h portStr = true
    exact checkHostPort_true ipParse h portStr n hhs hne hport h1 h2 hOK
  · -- port out of range, unbracketed
    intro host portStr n hhead hcol hport hrange
    unfold validate_proxy
    rw [if_neg (by
      rintro (hnil | hnc)
      · exact absurd (List.append_eq_nil.mp hnil).2 (by simp)
      · exact hnc (List.mem_append.mpr (Or.inr (List.mem_cons_self ':' portStr))))]
    rw [if_neg (by
      cases host with
      | nil =>
        intro hh
        rw [List.nil_append, List.headD_cons] at hh
        exact absurd hh (by decide)
      | cons c t => simpa [List.cons_append] using hhead)]
    rw [rsplitColon_append host portStr hcol]
    show checkHostPort ipParse host portStr = false
    exact checkHostPort_range_false ipParse host portStr n hport hrange
  · -- port out of range, bracketed
    intro h portStr n hnrb hport hrange
    unfold validate_proxy
    rw [if_neg (by
      rintro (hnil | hnc)
      · exact absurd hnil (by simp)
      · exact hnc (List.mem_cons_of_mem '['
          (List.mem_append.mpr (Or.inr (List.mem_cons_of_mem ']'
            (List.mem_cons_self ':' portStr))))))]
    rw [if_pos (by rw [List.headD_cons])]
    rw [if_neg (not_not_intro (List.mem_cons_of_mem '['
      (List.mem_append.mpr (Or.inr (List.mem_cons_self ']' (':' :: portStr))))))]
    rw [partitionBracketColon_bracket h portStr hnrb]
    show (if ('[' :: h) = [] ∨ portStr = [] then false
          else checkHostPort ipParse (('[' :: h).drop 1) portStr) = false
    by_cases hp : portStr = []
    · rw [if_pos (Or.inr hp)]
    · rw [if_neg (by rintro (hnil | hnil); exact absurd hnil (by simp); exact hp hnil)]
      show checkHostPort ipParse h portStr = false
      exact checkHostPort_range_false ipParse h portStr n hport hrange
  · -- empty input
    unfold validate_proxy
    rw [if_pos (Or.inl rfl)]
  · -- no colon
    intro s hs
    unfold validate_proxy
    rw [if_pos (Or.inr hs)]
  · -- leading bracket without a matching "]:"
    intro s hhd hocc
    unfold validate_proxy
    by_cases hTop : s = [] ∨ ':' ∉ s
    · rw [if_pos hTop]
    · rw [if_neg hTop, if_pos hhd]
      by_cases hrb : ']' ∈ s
      · rw [if_neg (not_not_intro hrb)]
        cases hpart : partitionBracketColon s with
        | none => rfl
        | some pr => exact absurd (partitionBracketColon_some_occurrence s pr hpart) hocc
      · rw [if_pos hrb]

theorem validate_proxy_accepts_rejects_witness :
    validate_proxy ipStub (pystr "1.2.3.4" ++ ':' :: pystr "80") = true ∧
    validate_proxy ipStub ('[' :: (pystr "::1" ++ ']' :: ':' :: pystr "9090")) = true ∧
    validate_proxy ipStub (pystr "1.2.3.4" ++ ':' :: pystr "70000") = false ∧
    validate_proxy ipStub ('[' :: (pystr "::1" ++ ']' :: ':' :: pystr "0")) = false ∧
    validate_proxy ipStub [] = false ∧
    validate_proxy ipStub (pystr "noport") = false ∧
    validate_proxy ipStub (pystr "[::1:8080") = false :=
  ⟨(validate_proxy_accepts_rejects ipStub).1 (pystr "1.2.3.4") (pystr "80") 80
      (by decide) (by decide) (by decide) (by decide) (by decide) (by decide) (by decide)
      (Or.inr (Or.inr (by decide))),
   (validate_proxy_accepts_rejects ipStub).2.1 (pystr "::1") (pystr "9090") 9090
      (by decide) (by decide) (by decide) (by decide) (by decide) (by decide)
      (Or.inr (Or.inl (by decide))),
   (validate_proxy_accepts_rejects ipStub).2.2.1 (pystr "1.2.3.4") (pystr "70000") 70000
      (by decide) (by decide) (by decide) (Or.inr (by decide)),
   (validate_proxy_accepts_rejects ipStub).2.2.2.1 (pystr "::1") (pystr "0") 0
      (by decide) (by decide) (Or.inl (by decide)),
   (validate_proxy_accepts_rejects ipStub).2.2.2.2.1.1,
   (validate_proxy_accepts_rejects ipStub).2.2.2.2.1.2 (pystr "noport") (by decide),
   (validate_proxy_accepts_rejects ipStub).2.2.2.2.2 (pystr "[::1:8080") (by decide)
     (by
       rintro ⟨u, v, heq⟩
       have hm : ']' ∈ pystr "[::1:8080" := by
         rw [heq]
         exact List.mem_append.mpr (Or.inr (List.mem_cons_self ']' (':' :: v)))
       exact absurd hm (by decide))⟩
